import Mathlib

/-!
# Verification of the market-simulation engine

A shallow embedding, in Lean 4, of the core state-transition and trading
logic of the simulator (the TypeScript module holding `initializeState`,
`calculateIndicators`, `evaluateTradesAndLearn`, `runEndOfDayLogic`,
`advanceTime`, `playerBuyStock` and `playerSellStock`).

Conventions of the embedding:
* JS numbers are embedded as `ℚ` (exact rational arithmetic in place of
  binary floating point).
* ISO time strings are embedded as epoch milliseconds (`Int`); the source
  only ever compares `new Date(s).getTime()` values, which this encoding
  preserves.
* Fallible array indexing (`xs[xs.length - 1].close` on a possibly empty
  array, which throws in JS) is embedded with `Option`: `none` stands for
  a thrown `TypeError`.
* `Math.floor` on a rational is `Int.floor`.
* The field `open` of an OHLC point is embedded as `openP` (`open` is a
  Lean keyword).
-/

namespace StockMarket

/-- OHLC price/volume point, from the `OHLCDataPoint` interface. -/
structure OHLCDataPoint where
  day : Int
  openP : ℚ
  high : ℚ
  low : ℚ
  close : ℚ
  volume : ℚ
deriving DecidableEq, Repr

/-- A FIFO purchase lot, from the `ShareLot` interface.  `purchaseTime` is
epoch milliseconds; `purchaseIndicators` is the named indicator snapshot. -/
structure ShareLot where
  purchaseTime : Int
  purchasePrice : ℚ
  shares : ℚ
  purchaseIndicators : List (String × ℚ)
deriving DecidableEq, Repr

/-- A per-symbol holding, from the `PortfolioItem` interface. -/
structure PortfolioItem where
  symbol : String
  lots : List ShareLot
deriving DecidableEq, Repr

/-- Trade direction, from the `'buy' | 'sell'` union of tracked trades. -/
inductive TradeType where
  | buy
  | sell
deriving DecidableEq, Repr

/-- A deferred-outcome ledger entry for an investor trade, from the record
pushed onto `investor.recentTrades`. -/
structure TrackedTrade where
  symbol : String
  day : Int
  type : TradeType
  shares : ℚ
  price : ℚ
  indicatorValuesAtTrade : List ℚ
  outcomeEvaluationDay : Int
deriving DecidableEq, Repr

/-- One observed call to `NeuralNetwork.backpropagate`. -/
structure TrainingCall where
  inputs : List ℚ
  targets : List ℚ
  learningRate : ℚ
deriving DecidableEq, Repr

/-- Modelled from the spec: the `NeuralNetwork` class
(`services/neuralNetwork`) is not under `src/`.  Per §4.1 of the spec,
`backpropagate(inputs, targets, learningRate)` performs exactly one online
training step per call and mutates only the network.  For the ledger claims
only the sequence of training calls matters, so the network is embedded as
the log of its training calls. -/
structure NeuralNetwork where
  trainLog : List TrainingCall
deriving DecidableEq, Repr

/-- Modelled from the spec: one `backpropagate` call appends one training
step to the network's history (§4.1: "each call is one online step"). -/
def NeuralNetwork.backpropagate (nn : NeuralNetwork) (inputs : List ℚ)
    (targets : List ℚ) (learningRate : ℚ) : NeuralNetwork :=
  { nn with trainLog := nn.trainLog ++ [⟨inputs, targets, learningRate⟩] }

/-- The fields of `HyperComplexInvestorStrategy` the ledger and trading
passes read (`network`, `riskAversion`, `learningRate`).  `network` is
optional, mirroring the `if (!strategy.network) return;` guards. -/
structure HyperComplexStrategy where
  network : Option NeuralNetwork
  riskAversion : ℚ
  learningRate : ℚ
deriving DecidableEq, Repr

/-- An investor, from the `Investor` interface (the fields the verified
operations touch). -/
structure Investor where
  id : String
  isHuman : Bool
  cash : ℚ
  portfolio : List PortfolioItem
  totalTaxesPaid : ℚ
  waAnnualNetLTCG : ℚ
  recentTrades : List TrackedTrade
  strategy : HyperComplexStrategy
deriving DecidableEq, Repr

/-- An event impact: either a single scalar applied as a multiplier, or a
per-region table (a JS object keyed by region name). -/
inductive EventImpact where
  | scalar (value : ℚ)
  | perRegion (table : List (String × ℚ))
deriving DecidableEq, Repr

/-- The fields of `ActiveEvent` the price-update pass reads.  `impact` is
optional: events such as splits carry no `impact` field. -/
structure ActiveEvent where
  stockSymbol : Option String
  type : String
  impact : Option EventImpact
  region : Option String
deriving DecidableEq, Repr

/-- A stock, from the `Stock` interface (the fields the verified operations
touch; the per-company `corporateAI` networks are not needed by the
claims verified here). -/
structure Stock where
  symbol : String
  name : String
  sector : String
  region : String
  history : List OHLCDataPoint
  sharesOutstanding : ℚ
  eps : ℚ
  isDelisted : Bool
deriving DecidableEq, Repr

/-- The aggregate simulation state (the slice of `SimulationState` the
verified operations touch).  `time` is epoch milliseconds. -/
structure SimulationState where
  day : Int
  time : Int
  stocks : List Stock
  investors : List Investor
  activeEvent : Option ActiveEvent
deriving DecidableEq, Repr

/-- `stock.history[stock.history.length - 1].close`, with default `0` when
the history is empty (the source would throw there; every theorem that
depends on this value assumes a nonempty history). -/
def lastClose (s : Stock) : ℚ :=
  ((s.history.getLast?).map OHLCDataPoint.close).getD 0

/-- `getSharesOwned` from the source: sum of `lot.shares` over the item's
lots (`0` for an absent item). -/
def getSharesOwned (item : Option PortfolioItem) : ℚ :=
  match item with
  | none => 0
  | some it => it.lots.foldl (fun sum lot => sum + lot.shares) 0

/-- Total shares held across a lot list. -/
def lotsShares (lots : List ShareLot) : ℚ :=
  (lots.map ShareLot.shares).sum

/-- `INFLATION_RATE = 0.02 / 365` from `constants`. -/
def INFLATION_RATE : ℚ := 2 / 100 / 365

/-- `TAX_CONSTANTS.LONG_TERM_HOLDING_PERIOD = 365` days, from `constants`. -/
def LONG_TERM_HOLDING_PERIOD : ℚ := 365

/-- Milliseconds in a day (`1000 * 3600 * 24` in the source's holding-period
division). -/
def MS_PER_DAY : ℚ := 1000 * 3600 * 24

/-! ## Stock split (`runEndOfDayLogic`, split branch)

On a split with ratio `r` the source runs
`stock.sharesOutstanding *= ratio`, divides every history point's
`open`, `high`, `low`, `close` by `ratio`, and divides `eps` by `ratio`. -/

/-- The split mutation applied to one stock. -/
def applySplit (stock : Stock) (ratio : ℚ) : Stock :=
  { stock with
    sharesOutstanding := stock.sharesOutstanding * ratio
    history := stock.history.map (fun h =>
      { h with openP := h.openP / ratio, high := h.high / ratio,
               low := h.low / ratio, close := h.close / ratio })
    eps := stock.eps / ratio }

/-! ## RSI contrarian indicator (`calculateIndicators`, RSI block) -/

/-- One iteration of the RSI gain/loss loop: a positive change adds to
gains, otherwise its absolute value adds to losses. -/
def rsiStep (gl : ℚ × ℚ) (pair : ℚ × ℚ) : ℚ × ℚ :=
  let change := pair.2 - pair.1
  if change > 0 then (gl.1 + change, gl.2) else (gl.1, gl.2 + |change|)

/-- The RSI gain/loss accumulation loop over each consecutive pair of the
slice. -/
def rsiGainLoss (slice : List ℚ) : ℚ × ℚ :=
  (slice.zip slice.tail).foldl rsiStep (0, 0)

/-- The `oscillator_rsi_p_contrarian` indicator: computed only when
`prices.length > p`, from the last `p + 1` closes (`prices.slice(-p-1)`).
Returns `none` when the key is not emitted (insufficient history). -/
def rsiContrarian (prices : List ℚ) (p : ℕ) : Option ℚ :=
  if p < prices.length then
    let slice := prices.drop (prices.length - (p + 1))
    let gl := rsiGainLoss slice
    let avgGain := gl.1 / p
    let avgLoss := gl.2 / p
    if avgLoss > 0 then
      let rs := avgGain / avgLoss
      let rsi := 100 - 100 / (1 + rs)
      some ((50 - rsi) / 50)
    else
      some 0
  else
    none

/-! ## Deferred-outcome ledger settlement for investor trades
(`evaluateTradesAndLearn`) -/

/-- `stocks[0].history.slice(-1)[0].day`: the settlement day read by
`evaluateTradesAndLearn` (default `0` for the empty cases, in which the
source would throw). -/
def currentLedgerDay (stocks : List Stock) : Int :=
  (((stocks.head?).bind (fun s => s.history.getLast?)).map OHLCDataPoint.day).getD 0

/-- Processing of one due trade: look up the stock by symbol (skip when
absent), compute the realized return with the sell-side sign flip, squash
it through `sq` (the source's `Math.tanh(effectiveReturn * 10)`; `sq` is a
parameter because `tanh` is transcendental) and train once when the stored
feature vector is nonempty. -/
def tradeTrainStep (sq : ℚ → ℚ) (learningRate : ℚ) (stocks : List Stock)
    (nn : NeuralNetwork) (trade : TrackedTrade) : NeuralNetwork :=
  match stocks.find? (fun s => s.symbol == trade.symbol) with
  | none => nn
  | some stock =>
    let currentPrice := lastClose stock
    let actualReturn := currentPrice / trade.price - 1
    let effectiveReturn :=
      match trade.type with
      | TradeType.buy => actualReturn
      | TradeType.sell => -actualReturn
    let targetScore := sq (effectiveReturn * 10)
    if trade.indicatorValuesAtTrade.length > 0 then
      nn.backpropagate trade.indicatorValuesAtTrade [targetScore] learningRate
    else
      nn

/-- `evaluateTradesAndLearn(investor, stocks)`: split the ledger into due
(`outcomeEvaluationDay ≤ currentDay`, evaluated and discarded) and not yet
due (kept), then run one training step per due trade.  A strategy without
a network returns immediately. -/
def evaluateTradesAndLearn (sq : ℚ → ℚ) (investor : Investor)
    (stocks : List Stock) : Investor :=
  match investor.strategy.network with
  | none => investor
  | some nn =>
    let currentDay := currentLedgerDay stocks
    let tradesToEvaluate :=
      investor.recentTrades.filter (fun t => t.outcomeEvaluationDay ≤ currentDay)
    let keep :=
      investor.recentTrades.filter (fun t => t.outcomeEvaluationDay > currentDay)
    let trained :=
      tradesToEvaluate.foldl (tradeTrainStep sq investor.strategy.learningRate stocks) nn
    { investor with
      recentTrades := keep
      strategy := { investor.strategy with network := some trained } }

/-! ## Active-event price impact (`runEndOfDayLogic`, price pass) -/

/-- Lookup of `impact[region]` in a per-region impact table. -/
def lookupRegion (table : List (String × ℚ)) (region : String) : Option ℚ :=
  (table.find? (fun e => e.1 == region)).map Prod.snd

/-- The multiplicative factor the active event contributes to one stock's
close, from the price pass:
* a numeric impact multiplies the price of every stock;
* a per-region impact multiplies directly when the table has the stock's
  region; otherwise, when the event's own region is set, is not `Global`
  and has a truthy table entry, a 25%-damped spillover applies;
* otherwise the price is unchanged (factor 1). -/
def eventPriceFactor (e : ActiveEvent) (stockRegion : String) : ℚ :=
  match e.impact with
  | none => 1
  | some (EventImpact.scalar v) => v
  | some (EventImpact.perRegion table) =>
    match lookupRegion table stockRegion with
    | some regionalImpact => regionalImpact
    | none =>
      match e.region with
      | none => 1
      | some eventRegion =>
        if eventRegion ≠ "Global" then
          match lookupRegion table eventRegion with
          | some mainImpact =>
            -- JS truthiness of `impact[eventRegion]`: a zero entry is falsy
            if mainImpact ≠ 0 then 1 + (mainImpact - 1) * (1 / 4) else 1
          | none => 1
        else 1

/-- The daily close update for one active stock (price pass of
`runEndOfDayLogic`): per-sector B&O tax drag and inflation, then the
active event's factor, then the same-day corporate multiplier, then the
positive clamp.  `boDragAnnual` is the sector's entry of
`WASHINGTON_B_AND_O_TAX_RATES_BY_SECTOR` (a constant table not under
`src/`; `0` for absent sectors). -/
def applyDailyClose (boDragAnnual : ℚ) (activeEvent : Option ActiveEvent)
    (dailyImpact : ℚ) (stockRegion : String) (point : OHLCDataPoint) :
    OHLCDataPoint :=
  let price0 := point.close
  let price1 := price0 * (1 - boDragAnnual / 365 + INFLATION_RATE)
  let price2 :=
    match activeEvent with
    | none => price1
    | some e => price1 * eventPriceFactor e stockRegion
  let price3 := price2 * dailyImpact
  { point with close := max (1 / 100) price3 }

/-! ## OHLC invariants (`advanceTime` diffusion and day seeding) -/

/-- The spec's OHLC invariant: all four prices strictly positive,
`high ≥ max(open, close)` and `low ≤ min(open, close)`. -/
def OhlcInvariant (p : OHLCDataPoint) : Prop :=
  0 < p.openP ∧ 0 < p.high ∧ 0 < p.low ∧ 0 < p.close ∧
    max p.openP p.close ≤ p.high ∧ p.low ≤ min p.openP p.close

instance (p : OHLCDataPoint) : Decidable (OhlcInvariant p) := by
  unfold OhlcInvariant; infer_instance

/-- One sub-day diffusion step of `advanceTime` on the running last point:
clamp the random walk at `0.01`, fold the new price into the close and the
intraday high/low. -/
def diffusionStep (rand : ℚ) (volatility : ℚ) (p : OHLCDataPoint) :
    OHLCDataPoint :=
  let newPrice := max (1 / 100) (p.close * (1 + (rand - 1 / 2) * volatility))
  { p with close := newPrice, high := max p.high newPrice,
           low := min p.low newPrice }

/-- The next-day point seeded at day close (`runEndOfDayLogic`, wrap-up):
all four prices equal the prior close, volume `0`. -/
def seedNextDayPoint (nextDay : Int) (lastPoint : OHLCDataPoint) :
    OHLCDataPoint :=
  { day := nextDay, openP := lastPoint.close, high := lastPoint.close,
    low := lastPoint.close, close := lastPoint.close, volume := 0 }

/-! ## FIFO lot consumption (`playerSellStock` loop and the end-of-day sell
branch) -/

/-- The FIFO consumption loop over a time-sorted lot list: while shares
remain to sell, a lot no larger than the remainder is dropped (fully
consumed) and a larger lot is reduced in place; once the remainder hits
zero the rest is kept unchanged. -/
def sellFIFO (toSell : ℚ) (lots : List ShareLot) : List ShareLot :=
  match lots with
  | [] => []
  | lot :: rest =>
    if toSell ≤ 0 then lot :: sellFIFO toSell rest
    else if lot.shares > toSell then
      { lot with shares := lot.shares - toSell } :: sellFIFO 0 rest
    else
      sellFIFO (toSell - lot.shares) rest

/-- The Boolean ordering on lots used by both sell paths:
`new Date(a.purchaseTime).getTime() - new Date(b.purchaseTime).getTime()`
ascending. -/
def lotTimeLE (a b : ShareLot) : Bool :=
  a.purchaseTime ≤ b.purchaseTime

/-- A sell against a lot list: sort by purchase time, then consume FIFO. -/
def sellLots (toSell : ℚ) (lots : List ShareLot) : List ShareLot :=
  sellFIFO toSell (lots.mergeSort lotTimeLE)

/-- The same walk, additionally accumulating the long-term capital-gain
contribution the source adds to `waAnnualNetLTCG`: for every lot visited
with shares still to sell, `(currentPrice - purchasePrice) * min(shares,
remaining)` counts when the lot was held more than
`LONG_TERM_HOLDING_PERIOD` days. -/
def sellLotsWalk (currentPrice : ℚ) (nowTime : Int) (toSell : ℚ)
    (lots : List ShareLot) : List ShareLot × ℚ :=
  match lots with
  | [] => ([], 0)
  | lot :: rest =>
    if toSell ≤ 0 then
      let tail := sellLotsWalk currentPrice nowTime toSell rest
      (lot :: tail.1, tail.2)
    else
      let gainOrLoss := (currentPrice - lot.purchasePrice) * min lot.shares toSell
      let contrib :=
        if ((nowTime : ℚ) - (lot.purchaseTime : ℚ)) / MS_PER_DAY >
            LONG_TERM_HOLDING_PERIOD then gainOrLoss else 0
      if lot.shares > toSell then
        let tail := sellLotsWalk currentPrice nowTime 0 rest
        ({ lot with shares := lot.shares - toSell } :: tail.1, contrib + tail.2)
      else
        let tail := sellLotsWalk currentPrice nowTime (toSell - lot.shares) rest
        (tail.1, contrib + tail.2)

/-- An abstract buy/sell history for one symbol's lot list. -/
inductive LotOp where
  | buy (lot : ShareLot)
  | sell (amount : ℚ)
deriving Repr

/-- Applying a sequence of buys (append a lot, as both buy paths do) and
sells (FIFO consume) to a lot list. -/
def applyLotOps (ops : List LotOp) (lots : List ShareLot) : List ShareLot :=
  match ops with
  | [] => lots
  | LotOp.buy lot :: rest => applyLotOps rest (lots ++ [lot])
  | LotOp.sell a :: rest => applyLotOps rest (sellLots a lots)

/-- Validity of an operation sequence: bought lots carry nonnegative
shares, and every sell is for an amount between zero and the shares then
held (both executing sell paths guarantee this: the player path rejects
oversells, the AI path sells `floor(owned * 0.5)`). -/
def ValidLotOps (ops : List LotOp) (lots : List ShareLot) : Prop :=
  match ops with
  | [] => True
  | LotOp.buy lot :: rest => 0 ≤ lot.shares ∧ ValidLotOps rest (lots ++ [lot])
  | LotOp.sell a :: rest =>
      0 ≤ a ∧ a ≤ lotsShares lots ∧ ValidLotOps rest (sellLots a lots)

/-- Total shares bought by an operation sequence. -/
def opsBought (ops : List LotOp) : ℚ :=
  (ops.map (fun op => match op with
    | LotOp.buy lot => lot.shares
    | LotOp.sell _ => 0)).sum

/-- Total shares sold by an operation sequence. -/
def opsSold (ops : List LotOp) : ℚ :=
  (ops.map (fun op => match op with
    | LotOp.buy _ => 0
    | LotOp.sell a => a)).sum

/-- Reduce the head lot of a list by `d` shares (identity on `[]`). -/
def reduceHead (d : ℚ) (lots : List ShareLot) : List ShareLot :=
  match lots with
  | [] => []
  | lot :: rest => { lot with shares := lot.shares - d } :: rest

/-! ## Player trades (`playerBuyStock` / `playerSellStock`)

`playerSellStockT` returns a pair: the value of the *input* state after
the call (the source mutates `inv.waAnnualNetLTCG` in place on the
investor object owned by `prevState`, see the `+=` inside the sell loop)
and the returned state.  `none` models the `TypeError` the source throws
when it reads `.close` of `history[history.length - 1]` on an empty
history. -/

/-- `playerBuyStock(prevState, playerId, symbol, shares)`. -/
def playerBuyStock (prevState : SimulationState) (playerId symbol : String)
    (shares : ℚ) : Option SimulationState :=
  match prevState.investors.find? (fun inv => inv.id == playerId),
        prevState.stocks.find? (fun s => s.symbol == symbol) with
  | some player, some stock =>
    if shares ≤ 0 then some prevState
    else
      match stock.history.getLast? with
      | none => none
      | some lastPoint =>
        let currentPrice := lastPoint.close
        let totalCost := currentPrice * shares
        if player.cash < totalCost then some prevState
        else
          let newLot : ShareLot :=
            { purchaseTime := prevState.time, purchasePrice := currentPrice,
              shares := shares, purchaseIndicators := [] }
          let newInvestors := prevState.investors.map (fun inv =>
            if inv.id == playerId then
              let idx : Nat := inv.portfolio.findIdx (fun item => item.symbol == symbol)
              let newPortfolio :=
                if idx < inv.portfolio.length then
                  inv.portfolio.mapIdx (fun i item =>
                    if i ≠ idx then item
                    else { item with lots := item.lots ++ [newLot] })
                else
                  inv.portfolio ++ [{ symbol := symbol, lots := [newLot] }]
              { inv with cash := inv.cash - totalCost, portfolio := newPortfolio }
            else inv)
          some { prevState with investors := newInvestors }
  | _, _ => some prevState

/-- `playerSellStock` with its in-place effect on the input made explicit:
`some (inputAfter, returned)`.  On every reject path both components equal
`prevState`; on the success path the returned state carries the cash and
portfolio updates, while `inputAfter` records that the matching investors
inside the input state had `waAnnualNetLTCG` incremented in place. -/
def playerSellStockT (prevState : SimulationState) (playerId symbol : String)
    (sharesToSell : ℚ) : Option (SimulationState × SimulationState) :=
  match prevState.investors.find? (fun inv => inv.id == playerId),
        prevState.stocks.find? (fun s => s.symbol == symbol) with
  | some player, some stock =>
    if sharesToSell ≤ 0 then some (prevState, prevState)
    else
      match player.portfolio.find? (fun item => item.symbol == symbol) with
      | none => some (prevState, prevState)
      | some portfolioItem =>
        let totalSharesOwned :=
          portfolioItem.lots.foldl (fun sum lot => sum + lot.shares) 0
        if totalSharesOwned < sharesToSell then some (prevState, prevState)
        else
          match stock.history.getLast? with
          | none => none
          | some lastPoint =>
            let currentPrice := lastPoint.close
            let sortedLots := portfolioItem.lots.mergeSort lotTimeLE
            let walk := sellLotsWalk currentPrice prevState.time sharesToSell sortedLots
            let newLots := walk.1
            let delta := walk.2
            let newPortfolio :=
              (player.portfolio.map (fun item =>
                if item.symbol == symbol then { item with lots := newLots }
                else item)).filter (fun item => item.lots.length > 0)
            let mutatedInvestors := prevState.investors.map (fun inv =>
              if inv.id == playerId then
                { inv with waAnnualNetLTCG := inv.waAnnualNetLTCG + delta }
              else inv)
            let newInvestors := prevState.investors.map (fun inv =>
              if inv.id == playerId then
                { inv with
                  waAnnualNetLTCG := inv.waAnnualNetLTCG + delta
                  cash := inv.cash + sharesToSell * currentPrice
                  portfolio := newPortfolio }
              else inv)
            some ({ prevState with investors := mutatedInvestors },
                  { prevState with investors := newInvestors })
  | _, _ => some (prevState, prevState)

/-- The state `playerSellStock` returns. -/
def playerSellStock (prevState : SimulationState) (playerId symbol : String)
    (sharesToSell : ℚ) : Option SimulationState :=
  (playerSellStockT prevState playerId symbol sharesToSell).map Prod.snd

/-- The value of the input state after a `playerSellStock` call. -/
def playerSellStockInputAfter (prevState : SimulationState)
    (playerId symbol : String) (sharesToSell : ℚ) : Option SimulationState :=
  (playerSellStockT prevState playerId symbol sharesToSell).map Prod.fst

/-- The value of the input state after a `playerBuyStock` call: the buy
path builds every updated record with spreads and never writes into the
input object graph, so the input is returned unchanged whenever the call
completes. -/
def playerBuyStockInputAfter (prevState : SimulationState)
    (playerId symbol : String) (shares : ℚ) : Option SimulationState :=
  (playerBuyStock prevState playerId symbol shares).map (fun _ => prevState)

/-! ## The end-of-day investor trading pass (`runEndOfDayLogic`, step 4) -/

/-- Append a freshly bought lot to the investor's portfolio: push onto the
existing item's lots, or push a new item (the buy branch's
`portfolioItem || { symbol, lots: [] }` plus `push`). -/
def addLotToPortfolio (portfolio : List PortfolioItem) (symbol : String)
    (lot : ShareLot) : List PortfolioItem :=
  if (portfolio.find? (fun p => p.symbol == symbol)).isSome then
    portfolio.map (fun item =>
      if item.symbol == symbol then { item with lots := item.lots ++ [lot] }
      else item)
  else
    portfolio ++ [{ symbol := symbol, lots := [lot] }]

/-- One step of the AI trading pass: one investor against one stock.
`scoreOf` abstracts `strategy.network.feedForward(indicatorValues)[0]`
(the network inference lives in `services/neuralNetwork`, not under
`src/`); `indicatorValuesOf` abstracts the ordered feature vector
recorded on the trade, and `indicatorMapOf` the named indicator map
stored on a bought lot (both produced by `calculateIndicators`).  Buy
when `score > riskAversion`, spending at most 20% of cash; sell
`floor(owned * 0.5)` when `score < -riskAversion` and shares are owned;
both paths append a deferred trade with evaluation day `nextDay + 5`. -/
def aiTradeStep (time : Int) (nextDay : Int) (scoreOf : Stock → ℚ)
    (indicatorValuesOf : Stock → List ℚ)
    (indicatorMapOf : Stock → List (String × ℚ)) (investor : Investor)
    (stock : Stock) : Investor :=
  if stock.isDelisted then investor
  else
    match investor.strategy.network with
    | none => investor
    | some _ =>
      let score := scoreOf stock
      let currentPrice := lastClose stock
      let portfolioItem? := investor.portfolio.find? (fun p => p.symbol == stock.symbol)
      let sharesOwned := getSharesOwned portfolioItem?
      if score > investor.strategy.riskAversion then
        let maxSpend := investor.cash * (1 / 5)
        let sharesToBuy : Int := ⌊maxSpend / currentPrice⌋
        if sharesToBuy > 0 then
          { investor with
            cash := investor.cash - (sharesToBuy : ℚ) * currentPrice
            portfolio := addLotToPortfolio investor.portfolio stock.symbol
              { purchaseTime := time, purchasePrice := currentPrice,
                shares := (sharesToBuy : ℚ),
                purchaseIndicators := indicatorMapOf stock }
            recentTrades := investor.recentTrades ++
              [{ symbol := stock.symbol, day := nextDay, type := TradeType.buy,
                 shares := (sharesToBuy : ℚ), price := currentPrice,
                 indicatorValuesAtTrade := indicatorValuesOf stock,
                 outcomeEvaluationDay := nextDay + 5 }] }
        else investor
      else
        if score < -investor.strategy.riskAversion ∧ sharesOwned > 0 then
          match portfolioItem? with
          | none => investor
          | some portfolioItem =>
            let sharesToSell : Int := ⌊sharesOwned * (1 / 2)⌋
            if sharesToSell > 0 then
              let sorted := portfolioItem.lots.mergeSort lotTimeLE
              let walk := sellLotsWalk currentPrice time (sharesToSell : ℚ) sorted
              let newLots := walk.1
              let newPortfolio :=
                if newLots.length > 0 then
                  investor.portfolio.map (fun item =>
                    if item.symbol == stock.symbol then { item with lots := newLots }
                    else item)
                else
                  investor.portfolio.filter (fun p => ¬(p.symbol == stock.symbol))
              { investor with
                cash := investor.cash + (sharesToSell : ℚ) * currentPrice
                waAnnualNetLTCG := investor.waAnnualNetLTCG + walk.2
                portfolio := newPortfolio
                recentTrades := investor.recentTrades ++
                  [{ symbol := stock.symbol, day := nextDay, type := TradeType.sell,
                     shares := (sharesToSell : ℚ), price := currentPrice,
                     indicatorValuesAtTrade := indicatorValuesOf stock,
                     outcomeEvaluationDay := nextDay + 5 }] }
            else investor
        else investor

/-- One investor's entire trading pass: the inner
`state.stocks.forEach` fold. -/
def aiTradingPass (time : Int) (nextDay : Int) (scoreOf : Stock → ℚ)
    (indicatorValuesOf : Stock → List ℚ)
    (indicatorMapOf : Stock → List (String × ℚ)) (investor : Investor)
    (stocks : List Stock) : Investor :=
  stocks.foldl (aiTradeStep time nextDay scoreOf indicatorValuesOf indicatorMapOf)
    investor

/-! ## Annual tax settlement (`runEndOfDayLogic`, step 6) -/

/-- `calculateWashingtonTax(investor)`: zero at or below the exemption,
otherwise the excess times the LTCG rate.  `exemption` and `rate` stand
for `TAX_CONSTANTS.WASHINGTON_CG_EXEMPTION` / `WASHINGTON_LTCG_RATE`,
constants not under `src/` (per the spec, a jurisdiction rate applied to
net long-term gains above an exemption). -/
def calculateWashingtonTax (exemption rate : ℚ) (investor : Investor) : ℚ :=
  if investor.waAnnualNetLTCG ≤ exemption then 0
  else (investor.waAnnualNetLTCG - exemption) * rate

/-- The per-investor day-close tax step (inside the `nextDay % 365 == 0`
block): humans are skipped entirely; others pay when the tax due is
positive and have the annual accumulator reset either way. -/
def taxCloseInvestor (exemption rate : ℚ) (investor : Investor) : Investor :=
  if investor.isHuman then investor
  else
    let taxDue := calculateWashingtonTax exemption rate investor
    let paid :=
      if taxDue > 0 then
        { investor with totalTaxesPaid := investor.totalTaxesPaid + taxDue,
                        cash := investor.cash - taxDue }
      else investor
    { paid with waAnnualNetLTCG := 0 }

/-- The annual tax settlement: fires only when `nextDay % 365 == 0`. -/
def annualTaxSettlement (exemption rate : ℚ) (nextDay : Int)
    (investors : List Investor) : List Investor :=
  if nextDay % 365 == 0 then investors.map (taxCloseInvestor exemption rate)
  else investors

/-! ## Helper lemmas -/

theorem rsiFoldNonneg (pairs : List (ℚ × ℚ)) (g0 l0 : ℚ) (hg : 0 ≤ g0)
    (hl : 0 ≤ l0) :
    0 ≤ (pairs.foldl rsiStep (g0, l0)).1 ∧ 0 ≤ (pairs.foldl rsiStep (g0, l0)).2 := by
  induction pairs generalizing g0 l0 with
  | nil => exact ⟨hg, hl⟩
  | cons pair rest ih =>
    simp only [List.foldl_cons]
    unfold rsiStep
    by_cases hpos : pair.2 - pair.1 > 0
    · simp only [hpos, if_pos]
      exact ih _ _ (by linarith) hl
    · simp only [hpos, if_neg, not_false_iff]
      exact ih _ _ hg (by positivity)

theorem rsiGainLossNonneg (slice : List ℚ) :
    0 ≤ (rsiGainLoss slice).1 ∧ 0 ≤ (rsiGainLoss slice).2 :=
  rsiFoldNonneg _ 0 0 le_rfl le_rfl

theorem backpropagateAddsOneCall (nn : NeuralNetwork) (inputs targets : List ℚ)
    (lr : ℚ) :
    (nn.backpropagate inputs targets lr).trainLog.length = nn.trainLog.length + 1 := by
  simp [NeuralNetwork.backpropagate]

theorem tradeTrainStepAddsOneCall (sq : ℚ → ℚ) (lr : ℚ) (stocks : List Stock)
    (nn : NeuralNetwork) (trade : TrackedTrade)
    (hfind : (stocks.find? (fun s => s.symbol == trade.symbol)).isSome)
    (hinp : trade.indicatorValuesAtTrade ≠ []) :
    (tradeTrainStep sq lr stocks nn trade).trainLog.length = nn.trainLog.length + 1 := by
  unfold tradeTrainStep
  obtain ⟨stock, hs⟩ := Option.isSome_iff_exists.mp hfind
  rw [hs]
  dsimp only
  rw [if_pos (by simpa [List.length_pos] using hinp)]
  exact backpropagateAddsOneCall nn _ _ lr

theorem foldlTradeTrainStepCallCount (sq : ℚ → ℚ) (lr : ℚ) (stocks : List Stock)
    (trades : List TrackedTrade) (nn : NeuralNetwork)
    (h : ∀ t ∈ trades, (stocks.find? (fun s => s.symbol == t.symbol)).isSome ∧
      t.indicatorValuesAtTrade ≠ []) :
    (trades.foldl (tradeTrainStep sq lr stocks) nn).trainLog.length =
      nn.trainLog.length + trades.length := by
  induction trades generalizing nn with
  | nil => simp
  | cons t rest ih =>
    simp only [List.foldl_cons, List.length_cons]
    rw [ih _ (fun x hx => h x (List.mem_cons_of_mem _ hx))]
    rw [tradeTrainStepAddsOneCall sq lr stocks nn t (h t (List.mem_cons_self _ _)).1
      (h t (List.mem_cons_self _ _)).2]
    omega

/-! ## Claim theorems -/

/-- C1: for every trade in the deferred-outcome ledger, the settlement at
day close performs no training and keeps the ledger intact while every
trade is still immature; once the simulated day reaches the evaluation
day, it fires exactly one `backpropagate` call per due trade on the owning
network and removes exactly the settled trades from the ledger. -/
theorem ledger_settles_trades_exactly_once (sq : ℚ → ℚ) (investor : Investor)
    (stocks : List Stock) (nn : NeuralNetwork)
    (hnn : investor.strategy.network = some nn)
    (hvalid : ∀ t ∈ investor.recentTrades,
      t.outcomeEvaluationDay ≤ currentLedgerDay stocks →
      (stocks.find? (fun s => s.symbol == t.symbol)).isSome ∧
        t.indicatorValuesAtTrade ≠ []) :
    ((∀ t ∈ investor.recentTrades, currentLedgerDay stocks < t.outcomeEvaluationDay) →
      evaluateTradesAndLearn sq investor stocks = investor) ∧
    (∃ trained : NeuralNetwork,
      (evaluateTradesAndLearn sq investor stocks).strategy.network = some trained ∧
      trained.trainLog.length = nn.trainLog.length +
        (investor.recentTrades.filter
          (fun t => t.outcomeEvaluationDay ≤ currentLedgerDay stocks)).length) ∧
    (evaluateTradesAndLearn sq investor stocks).recentTrades =
      investor.recentTrades.filter
        (fun t => t.outcomeEvaluationDay > currentLedgerDay stocks) := by
  refine ⟨?_, ?_, ?_⟩
  · intro h
    have hdue : investor.recentTrades.filter
        (fun t => t.outcomeEvaluationDay ≤ currentLedgerDay stocks) = [] := by
      refine List.filter_eq_nil_iff.mpr (fun t ht => ?_)
      simpa using not_le.mpr (h t ht)
    have hkeep : investor.recentTrades.filter
        (fun t => t.outcomeEvaluationDay > currentLedgerDay stocks) =
        investor.recentTrades := by
      refine List.filter_eq_self.mpr (fun t ht => ?_)
      simpa using h t ht
    simp only [evaluateTradesAndLearn, hnn, hdue, hkeep, List.foldl_nil]
    rw [← hnn]
  · refine ⟨(investor.recentTrades.filter
      (fun t => t.outcomeEvaluationDay ≤ currentLedgerDay stocks)).foldl
        (tradeTrainStep sq investor.strategy.learningRate stocks) nn, ?_, ?_⟩
    · simp only [evaluateTradesAndLearn, hnn]
    · refine foldlTradeTrainStepCallCount sq investor.strategy.learningRate stocks _ nn
        (fun t ht => ?_)
      have hmem := List.mem_filter.mp ht
      exact hvalid t hmem.1 (by simpa using hmem.2)
  · simp only [evaluateTradesAndLearn, hnn]

/-- Concrete data for the C1 witness: one tracked trade due on day 10. -/
def tradeC1 : TrackedTrade :=
  { symbol := "A", day := 5, type := TradeType.buy, shares := 1, price := 1,
    indicatorValuesAtTrade := [1], outcomeEvaluationDay := 10 }

/-- Concrete data for the C1 witness: a stock whose last history day is 10. -/
def stocksC1 : List Stock :=
  [{ symbol := "A", name := "A", sector := "Tech", region := "Asia",
     history := [{ day := 10, openP := 1, high := 2, low := 1, close := 2, volume := 0 }],
     sharesOutstanding := 1, eps := 1, isDelisted := false }]

/-- Concrete data for the C1 witness: an AI investor holding `tradeC1` in
its ledger with a fresh network. -/
def investorC1 : Investor :=
  { id := "i", isHuman := false, cash := 0, portfolio := [],
    totalTaxesPaid := 0, waAnnualNetLTCG := 0, recentTrades := [tradeC1],
    strategy := { network := some { trainLog := [] }, riskAversion := 0, learningRate := 1 / 100 } }

/-- C1 witness: a single due trade (evaluation day 10 against a history
whose last day is 10) trains exactly once and leaves the ledger empty. -/
theorem ledger_settles_trades_exactly_once_witness :
    ((∀ t ∈ investorC1.recentTrades,
        currentLedgerDay stocksC1 < t.outcomeEvaluationDay) →
      evaluateTradesAndLearn (fun x => x) investorC1 stocksC1 = investorC1) ∧
    (∃ trained : NeuralNetwork,
      (evaluateTradesAndLearn (fun x => x) investorC1 stocksC1).strategy.network =
        some trained ∧
      trained.trainLog.length =
        ({ trainLog := [] } : NeuralNetwork).trainLog.length +
        (investorC1.recentTrades.filter
          (fun t => t.outcomeEvaluationDay ≤ currentLedgerDay stocksC1)).length) ∧
    (evaluateTradesAndLearn (fun x => x) investorC1 stocksC1).recentTrades =
      investorC1.recentTrades.filter
        (fun t => t.outcomeEvaluationDay > currentLedgerDay stocksC1) :=
  ledger_settles_trades_exactly_once (fun x => x) investorC1 stocksC1
    { trainLog := [] } (by with_unfolding_all rfl)
    (by
      intro t ht hdue
      have hteq : t = tradeC1 := by simpa [investorC1] using ht
      subst hteq
      exact ⟨by with_unfolding_all rfl, by simp [tradeC1]⟩)

/-- C2: immediately after a stock split with ratio 2, the product of the
stock's last close price and its shares outstanding equals the pre-split
product (market cap preserved), and eps after the split equals eps before
divided by 2. -/
theorem split_preserves_market_cap_and_halves_eps (stock : Stock) :
    lastClose (applySplit stock 2) * (applySplit stock 2).sharesOutstanding =
      lastClose stock * stock.sharesOutstanding ∧
    (applySplit stock 2).eps = stock.eps / 2 := by
  refine ⟨?_, rfl⟩
  unfold lastClose applySplit
  simp only [List.getLast?_map]
  cases stock.history.getLast? with
  | none => simp
  | some p => simp only [Option.map_some', Option.getD_some]; ring

/-- C9: whenever the price history has more than `p` points
(`p ∈ {7, 14, 21}`), the contrarian RSI indicator is emitted (never NaN:
the division is guarded when the average loss is zero), and it equals
`(50 - RSI) / 50` with `RSI = 100 - 100 / (1 + avgGain / avgLoss)`
computed from the average gain and average loss over the last `p`
day-over-day changes — which simplifies to
`(avgLoss - avgGain) / (avgGain + avgLoss)` scale-free in `p`. -/
theorem rsi_contrarian_guarded_formula (prices : List ℚ) (p : ℕ) (g l : ℚ)
    (hp : p = 7 ∨ p = 14 ∨ p = 21) (hlen : p < prices.length)
    (hgl : rsiGainLoss (prices.drop (prices.length - (p + 1))) = (g, l)) :
    0 ≤ g ∧ 0 ≤ l ∧ (rsiContrarian prices p).isSome ∧
    (0 < l → rsiContrarian prices p =
      some ((50 - (100 - 100 / (1 + (g / p) / (l / p)))) / 50)) ∧
    (0 < l → rsiContrarian prices p = some ((l - g) / (l + g))) ∧
    (l = 0 → rsiContrarian prices p = some 0) := by
  have hpq : (0 : ℚ) < p := by
    rcases hp with h | h | h <;> simp [h]
  have hnn := rsiGainLossNonneg (prices.drop (prices.length - (p + 1)))
  rw [hgl] at hnn
  obtain ⟨hg, hl⟩ := hnn
  refine ⟨hg, hl, ?_, ?_, ?_, ?_⟩
  · unfold rsiContrarian
    simp only [if_pos hlen, hgl]
    by_cases h : l / (p : ℚ) > 0 <;> simp [h]
  · intro hlpos
    have havg : 0 < l / (p : ℚ) := div_pos hlpos hpq
    unfold rsiContrarian
    simp only [if_pos hlen, hgl]
    rw [if_pos havg]
  · intro hlpos
    have havg : 0 < l / (p : ℚ) := div_pos hlpos hpq
    unfold rsiContrarian
    simp only [if_pos hlen, hgl]
    rw [if_pos havg]
    congr 1
    have hlg : 0 < l + g := by linarith
    have hpne : (p : ℚ) ≠ 0 := ne_of_gt hpq
    have hlne : l ≠ 0 := ne_of_gt hlpos
    have hlgne : l + g ≠ 0 := ne_of_gt hlg
    have h1 : (g / (p : ℚ)) / (l / (p : ℚ)) = g / l := by
      rw [div_div_div_eq, mul_comm g (p : ℚ)]
      exact mul_div_mul_left g l hpne
    rw [h1]
    have h2 : 1 + g / l = (l + g) / l := by
      field_simp
    rw [h2]
    rw [div_div_eq_mul_div]
    field_simp
    ring
  · intro hl0
    have havg : ¬ (l / (p : ℚ) > 0) := by simp [hl0]
    unfold rsiContrarian
    simp only [if_pos hlen, hgl]
    rw [if_neg havg]

/-- C9 witness: an alternating 8-point history with `p = 7` yields gains 4,
losses 3 and the indicator `(3 - 4) / (3 + 4)`. -/
theorem rsi_contrarian_guarded_formula_witness :
    0 ≤ (4 : ℚ) ∧ 0 ≤ (3 : ℚ) ∧
      (rsiContrarian [1, 2, 1, 2, 1, 2, 1, 2] 7).isSome ∧
    (0 < (3 : ℚ) → rsiContrarian [1, 2, 1, 2, 1, 2, 1, 2] 7 =
      some ((50 - (100 - 100 / (1 + ((4 : ℚ) / (7 : ℕ)) / ((3 : ℚ) / (7 : ℕ))))) / 50)) ∧
    (0 < (3 : ℚ) → rsiContrarian [1, 2, 1, 2, 1, 2, 1, 2] 7 =
      some (((3 : ℚ) - 4) / (3 + 4))) ∧
    ((3 : ℚ) = 0 → rsiContrarian [1, 2, 1, 2, 1, 2, 1, 2] 7 = some 0) :=
  rsi_contrarian_guarded_formula [1, 2, 1, 2, 1, 2, 1, 2] 7 4 3
    (by decide) (by decide) (by with_unfolding_all rfl)

/-- C10: the annual settlement fires exactly on days divisible by 365; the
day-close tax step leaves every human investor entirely unchanged (cash,
`totalTaxesPaid`, `waAnnualNetLTCG` included), and reduces a non-human
investor's cash only when the computed tax due is strictly positive. -/
theorem annual_tax_spares_human_and_positive_due (exemption rate : ℚ)
    (nextDay : Int) (investors : List Investor) :
    (nextDay % 365 = 0 →
      annualTaxSettlement exemption rate nextDay investors =
        investors.map (taxCloseInvestor exemption rate)) ∧
    (¬ nextDay % 365 = 0 →
      annualTaxSettlement exemption rate nextDay investors = investors) ∧
    (∀ inv : Investor, inv.isHuman = true →
      taxCloseInvestor exemption rate inv = inv) ∧
    (∀ inv : Investor, inv.isHuman = false →
      ((taxCloseInvestor exemption rate inv).cash = inv.cash ∧
        (taxCloseInvestor exemption rate inv).totalTaxesPaid = inv.totalTaxesPaid) ∨
      (0 < calculateWashingtonTax exemption rate inv ∧
        (taxCloseInvestor exemption rate inv).cash =
          inv.cash - calculateWashingtonTax exemption rate inv)) ∧
    (∀ inv : Investor, inv.isHuman = false →
      (taxCloseInvestor exemption rate inv).waAnnualNetLTCG = 0) := by
  refine ⟨?_, ?_, ?_, ?_, ?_⟩
  · intro h
    unfold annualTaxSettlement
    simp [h]
  · intro h
    unfold annualTaxSettlement
    simp [h]
  · intro inv h
    unfold taxCloseInvestor
    simp [h]
  · intro inv h
    unfold taxCloseInvestor
    rw [if_neg (by simp [h])]
    by_cases hdue : calculateWashingtonTax exemption rate inv > 0
    · right
      exact ⟨hdue, by simp [hdue]⟩
    · left
      simp [hdue]
  · intro inv h
    unfold taxCloseInvestor
    rw [if_neg (by simp [h])]

/-- C10 witness: a concrete non-human investor above the exemption pays
`(300000 - 250000) * 7 / 100`, a human one is untouched. -/
theorem annual_tax_spares_human_and_positive_due_witness :
    (((365 : Int) % 365 = 0) →
      annualTaxSettlement 250000 (7 / 100) 365
          [{ id := "h", isHuman := true, cash := 10, portfolio := [],
             totalTaxesPaid := 0, waAnnualNetLTCG := 300000, recentTrades := [],
             strategy := { network := none, riskAversion := 0, learningRate := 0 } }] =
        [{ id := "h", isHuman := true, cash := 10, portfolio := [],
           totalTaxesPaid := 0, waAnnualNetLTCG := 300000, recentTrades := [],
           strategy := { network := none, riskAversion := 0, learningRate := 0 } }].map
          (taxCloseInvestor 250000 (7 / 100))) ∧
    (¬ ((365 : Int) % 365 = 0) →
      annualTaxSettlement 250000 (7 / 100) 365
          [{ id := "h", isHuman := true, cash := 10, portfolio := [],
             totalTaxesPaid := 0, waAnnualNetLTCG := 300000, recentTrades := [],
             strategy := { network := none, riskAversion := 0, learningRate := 0 } }] =
        [{ id := "h", isHuman := true, cash := 10, portfolio := [],
           totalTaxesPaid := 0, waAnnualNetLTCG := 300000, recentTrades := [],
           strategy := { network := none, riskAversion := 0, learningRate := 0 } }]) ∧
    (∀ inv : Investor, inv.isHuman = true →
      taxCloseInvestor 250000 (7 / 100) inv = inv) ∧
    (∀ inv : Investor, inv.isHuman = false →
      ((taxCloseInvestor 250000 (7 / 100) inv).cash = inv.cash ∧
        (taxCloseInvestor 250000 (7 / 100) inv).totalTaxesPaid = inv.totalTaxesPaid) ∨
      (0 < calculateWashingtonTax 250000 (7 / 100) inv ∧
        (taxCloseInvestor 250000 (7 / 100) inv).cash =
          inv.cash - calculateWashingtonTax 250000 (7 / 100) inv)) ∧
    (∀ inv : Investor, inv.isHuman = false →
      (taxCloseInvestor 250000 (7 / 100) inv).waAnnualNetLTCG = 0) :=
  annual_tax_spares_human_and_positive_due 250000 (7 / 100) 365 _

/-- C3 counterexample: the active event names company AAPL in North
America with scalar impact `0.9`, yet an Asian company the event does not
name (nor its sector nor its region) receives the full factor `0.9` in the
price pass — not the damped spillover `1 + (0.9 - 1) * 0.25 = 0.975` the
claim requires for every other company. -/
theorem event_spillover_counterexample :
    eventPriceFactor
        { stockSymbol := some "AAPL", type := "negative",
          impact := some (EventImpact.scalar (9 / 10)),
          region := some "North America" } "Asia" = 9 / 10 ∧
    (9 / 10 : ℚ) ≠ 1 + ((9 / 10 : ℚ) - 1) * (1 / 4) ∧
    (applyDailyClose 0
        (some { stockSymbol := some "AAPL", type := "negative",
                impact := some (EventImpact.scalar (9 / 10)),
                region := some "North America" })
        1 "Asia"
        { day := 1, openP := 100, high := 100, low := 100, close := 100,
          volume := 0 }).close ≠
      max (1 / 100) (100 * (1 - 0 / 365 + INFLATION_RATE) *
        (1 + ((9 / 10 : ℚ) - 1) * (1 / 4)) * 1) := by
  with_unfolding_all decide

/-- C3 (amended): the price pass multiplies the close by the active
event's factor after drag and inflation and before the corporate
multiplier; a *scalar* impact is applied in full to every active company
regardless of which company, sector or region the event names; a
*per-region* impact applies directly exactly when the table holds the
stock's region, and the 25%-damped spillover applies only when it does
not, the event's region is set, differs from `Global`, and has a nonzero
table entry; with no impact the factor is 1. -/
theorem event_impact_factor_characterization (e : ActiveEvent)
    (stockRegion : String) (boDragAnnual dailyImpact : ℚ)
    (point : OHLCDataPoint) :
    (applyDailyClose boDragAnnual (some e) dailyImpact stockRegion point).close =
      max (1 / 100) (point.close * (1 - boDragAnnual / 365 + INFLATION_RATE) *
        eventPriceFactor e stockRegion * dailyImpact) ∧
    (∀ v, e.impact = some (EventImpact.scalar v) →
      eventPriceFactor e stockRegion = v) ∧
    (e.impact = none → eventPriceFactor e stockRegion = 1) ∧
    (∀ table r, e.impact = some (EventImpact.perRegion table) →
      lookupRegion table stockRegion = some r →
      eventPriceFactor e stockRegion = r) ∧
    (∀ table eventRegion mainImpact,
      e.impact = some (EventImpact.perRegion table) →
      lookupRegion table stockRegion = none →
      e.region = some eventRegion → eventRegion ≠ "Global" →
      lookupRegion table eventRegion = some mainImpact → mainImpact ≠ 0 →
      eventPriceFactor e stockRegion = 1 + (mainImpact - 1) * (1 / 4)) := by
  refine ⟨?_, ?_, ?_, ?_, ?_⟩
  · rfl
  · intro v hv
    simp only [eventPriceFactor, hv]
  · intro hv
    simp only [eventPriceFactor, hv]
  · intro table r htab hreg
    simp only [eventPriceFactor, htab, hreg]
  · intro table eventRegion mainImpact htab hnone hreg hglob hmain hzero
    simp only [eventPriceFactor, htab, hnone, hreg, hmain]
    rw [if_pos hglob, if_pos hzero]

/-- C3 amended-theorem witness: a per-region impact on Europe spills over
at 25% damping to an Asian company. -/
theorem event_impact_factor_characterization_witness :
    (applyDailyClose 0
        (some { stockSymbol := none, type := "political",
                impact := some (EventImpact.perRegion [("Europe", 11 / 10)]),
                region := some "Europe" }) 1 "Asia"
        { day := 1, openP := 100, high := 100, low := 100, close := 100,
          volume := 0 }).close =
      max (1 / 100) (100 * (1 - 0 / 365 + INFLATION_RATE) *
        eventPriceFactor
          { stockSymbol := none, type := "political",
            impact := some (EventImpact.perRegion [("Europe", 11 / 10)]),
            region := some "Europe" } "Asia" * 1) ∧
    eventPriceFactor
        { stockSymbol := none, type := "political",
          impact := some (EventImpact.perRegion [("Europe", 11 / 10)]),
          region := some "Europe" } "Asia" =
      1 + ((11 / 10 : ℚ) - 1) * (1 / 4) :=
  ⟨(event_impact_factor_characterization
      { stockSymbol := none, type := "political",
        impact := some (EventImpact.perRegion [("Europe", 11 / 10)]),
        region := some "Europe" } "Asia" 0 1
      { day := 1, openP := 100, high := 100, low := 100, close := 100,
        volume := 0 }).1,
    (event_impact_factor_characterization
      { stockSymbol := none, type := "political",
        impact := some (EventImpact.perRegion [("Europe", 11 / 10)]),
        region := some "Europe" } "Asia" 0 1
      { day := 1, openP := 100, high := 100, low := 100, close := 100,
        volume := 0 }).2.2.2.2
      [("Europe", 11 / 10)] "Europe" (11 / 10) rfl
      (by with_unfolding_all rfl) rfl (by decide)
      (by with_unfolding_all rfl) (by norm_num)⟩

/-- C8 counterexample: the end-of-day close update rescales only `close`
(here: a same-day corporate multiplier of 1.15) and leaves `high`/`low`
untouched, so the closed day's point violates `high ≥ max(open, close)`
after the daily transition. -/
theorem ohlc_invariant_eod_counterexample :
    OhlcInvariant
      { day := 1, openP := 100, high := 100, low := 100, close := 100,
        volume := 0 } ∧
    ¬ OhlcInvariant (applyDailyClose 0 none (23 / 20) "Global"
      { day := 1, openP := 100, high := 100, low := 100, close := 100,
        volume := 0 }) := by
  with_unfolding_all decide

/-- C8 (amended): every sub-day diffusion step of `advanceTime` preserves
the OHLC invariant on the running point, the next-day point seeded at day
close satisfies it, and the end-of-day close update keeps all four prices
strictly positive (it clamps the close and leaves open/high/low
unchanged) — but it does not re-establish `high ≥ max(open, close)` /
`low ≤ min(open, close)` on the closed day. -/
theorem ohlc_invariant_diffusion_and_seed (rand volatility : ℚ)
    (nextDay : Int) (boDragAnnual dailyImpact : ℚ)
    (activeEvent : Option ActiveEvent) (stockRegion : String)
    (p : OHLCDataPoint) (h : OhlcInvariant p) :
    OhlcInvariant (diffusionStep rand volatility p) ∧
    OhlcInvariant (seedNextDayPoint nextDay p) ∧
    0 < (applyDailyClose boDragAnnual activeEvent dailyImpact stockRegion p).close ∧
    (applyDailyClose boDragAnnual activeEvent dailyImpact stockRegion p).openP = p.openP ∧
    (applyDailyClose boDragAnnual activeEvent dailyImpact stockRegion p).high = p.high ∧
    (applyDailyClose boDragAnnual activeEvent dailyImpact stockRegion p).low = p.low := by
  obtain ⟨ho, hh, hl, hc, hmax, hmin⟩ := h
  have hq : (0 : ℚ) < 1 / 100 := by norm_num
  refine ⟨?_, ?_, ?_, ?_, ?_, ?_⟩
  · unfold diffusionStep
    have hnp : (0 : ℚ) < max (1 / 100) (p.close * (1 + (rand - 1 / 2) * volatility)) :=
      lt_of_lt_of_le hq (le_max_left _ _)
    refine ⟨ho, lt_max_of_lt_left hh, lt_min hl hnp, hnp, ?_, ?_⟩
    · exact max_le (le_trans (le_trans (le_max_left _ _) hmax) (le_max_left _ _))
        (le_max_right _ _)
    · exact le_min (le_trans (min_le_left _ _) (le_trans hmin (min_le_left _ _)))
        (min_le_right _ _)
  · exact ⟨hc, hc, hc, hc, by simp [seedNextDayPoint], by simp [seedNextDayPoint]⟩
  · unfold applyDailyClose
    exact lt_of_lt_of_le hq (le_max_left _ _)
  · rfl
  · rfl
  · rfl

/-- C8 amended-theorem witness: a concrete valid point stays valid through
a diffusion step and the day seeding, and keeps a positive close through
the end-of-day update. -/
theorem ohlc_invariant_diffusion_and_seed_witness :
    OhlcInvariant (diffusionStep 0 0
      { day := 1, openP := 1, high := 1, low := 1, close := 1, volume := 0 }) ∧
    OhlcInvariant (seedNextDayPoint 2
      { day := 1, openP := 1, high := 1, low := 1, close := 1, volume := 0 }) ∧
    0 < (applyDailyClose 0 none 1 "Global"
      { day := 1, openP := 1, high := 1, low := 1, close := 1, volume := 0 }).close ∧
    (applyDailyClose 0 none 1 "Global"
      { day := 1, openP := 1, high := 1, low := 1, close := 1, volume := 0 }).openP =
      ({ day := 1, openP := 1, high := 1, low := 1, close := 1, volume := 0 } : OHLCDataPoint).openP ∧
    (applyDailyClose 0 none 1 "Global"
      { day := 1, openP := 1, high := 1, low := 1, close := 1, volume := 0 }).high =
      ({ day := 1, openP := 1, high := 1, low := 1, close := 1, volume := 0 } : OHLCDataPoint).high ∧
    (applyDailyClose 0 none 1 "Global"
      { day := 1, openP := 1, high := 1, low := 1, close := 1, volume := 0 }).low =
      ({ day := 1, openP := 1, high := 1, low := 1, close := 1, volume := 0 } : OHLCDataPoint).low :=
  ohlc_invariant_diffusion_and_seed 0 0 2 0 1 none "Global" _
    (by with_unfolding_all decide)

/-- C4: for every invalid player-trade input — unknown investor id,
unknown or absent stock symbol, non-positive share count, insufficient
cash on a buy, insufficient total owned shares on a sell —
`playerBuyStock` and `playerSellStock` return the state unchanged, and on
a well-formed state (every stock has price history) they never throw. -/
theorem player_invalid_trades_rejected_silently (prevState : SimulationState)
    (playerId symbol : String) (shares : ℚ)
    (hwf : ∀ s ∈ prevState.stocks, s.history ≠ []) :
    (playerBuyStock prevState playerId symbol shares).isSome ∧
    (playerSellStock prevState playerId symbol shares).isSome ∧
    (prevState.investors.find? (fun inv => inv.id == playerId) = none →
      playerBuyStock prevState playerId symbol shares = some prevState ∧
      playerSellStock prevState playerId symbol shares = some prevState) ∧
    (prevState.stocks.find? (fun s => s.symbol == symbol) = none →
      playerBuyStock prevState playerId symbol shares = some prevState ∧
      playerSellStock prevState playerId symbol shares = some prevState) ∧
    (shares ≤ 0 →
      playerBuyStock prevState playerId symbol shares = some prevState ∧
      playerSellStock prevState playerId symbol shares = some prevState) ∧
    (∀ player stock,
      prevState.investors.find? (fun inv => inv.id == playerId) = some player →
      prevState.stocks.find? (fun s => s.symbol == symbol) = some stock →
      player.cash < lastClose stock * shares →
      playerBuyStock prevState playerId symbol shares = some prevState) ∧
    (∀ player,
      prevState.investors.find? (fun inv => inv.id == playerId) = some player →
      getSharesOwned (player.portfolio.find? (fun item => item.symbol == symbol)) <
        shares →
      playerSellStock prevState playerId symbol shares = some prevState) := by
  cases hfp : prevState.investors.find? (fun inv => inv.id == playerId) with
  | none =>
    cases hfs : prevState.stocks.find? (fun s => s.symbol == symbol) with
    | none =>
      refine ⟨?_, ?_, ?_, ?_, ?_, ?_, ?_⟩ <;>
        simp [playerBuyStock, playerSellStock, playerSellStockT, hfp, hfs]
    | some stock =>
      refine ⟨?_, ?_, ?_, ?_, ?_, ?_, ?_⟩ <;>
        simp [playerBuyStock, playerSellStock, playerSellStockT, hfp, hfs]
  | some player =>
    cases hfs : prevState.stocks.find? (fun s => s.symbol == symbol) with
    | none =>
      refine ⟨?_, ?_, ?_, ?_, ?_, ?_, ?_⟩ <;>
        simp [playerBuyStock, playerSellStock, playerSellStockT, hfp, hfs]
    | some stock =>
      have hmem := List.mem_of_find?_eq_some hfs
      obtain ⟨lp, hlp⟩ := Option.isSome_iff_exists.mp
        (List.getLast?_isSome.mpr (hwf stock hmem))
      have hlc : lastClose stock = lp.close := by simp [lastClose, hlp]
      refine ⟨?_, ?_, ?_, ?_, ?_, ?_, ?_⟩
      · -- buy never throws
        unfold playerBuyStock
        rw [hfp, hfs]
        dsimp only
        by_cases h0 : shares ≤ 0
        · simp [h0]
        · rw [if_neg h0, hlp]
          by_cases hc : player.cash < lp.close * shares
          · simp [hc]
          · simp [hc]
      · -- sell never throws
        unfold playerSellStock playerSellStockT
        rw [hfp, hfs]
        dsimp only
        by_cases h0 : shares ≤ 0
        · simp [h0]
        · rw [if_neg h0]
          cases hfi : player.portfolio.find? (fun item => item.symbol == symbol) with
          | none => simp
          | some item =>
            dsimp only
            by_cases hts : item.lots.foldl (fun sum lot => sum + lot.shares) 0 < shares
            · simp [hts]
            · rw [if_neg hts, hlp]
              simp
      · intro h
        simp at h
      · intro h
        simp at h
      · intro h0
        constructor
        · unfold playerBuyStock
          rw [hfp, hfs]
          dsimp only
          rw [if_pos h0]
        · unfold playerSellStock playerSellStockT
          rw [hfp, hfs]
          dsimp only
          rw [if_pos h0]
          rfl
      · intro p s hp hs hcash
        cases hp
        cases hs
        unfold playerBuyStock
        rw [hfp, hfs]
        dsimp only
        by_cases h0 : shares ≤ 0
        · rw [if_pos h0]
        · rw [if_neg h0, hlp]
          rw [hlc] at hcash
          dsimp only
          rw [if_pos hcash]
      · intro p hp howned
        cases hp
        unfold playerSellStock playerSellStockT
        rw [hfp, hfs]
        dsimp only
        by_cases h0 : shares ≤ 0
        · rw [if_pos h0]
          rfl
        · rw [if_neg h0]
          cases hfi : player.portfolio.find? (fun item => item.symbol == symbol) with
          | none => rfl
          | some item =>
            rw [hfi] at howned
            dsimp only
            rw [if_pos (by simpa [getSharesOwned] using howned)]
            rfl

/-- Concrete stock for the C4 witness: priced 10. -/
def stockC4 : Stock :=
  { symbol := "A", name := "A", sector := "Tech", region := "Asia",
    history := [{ day := 1, openP := 10, high := 10, low := 10, close := 10, volume := 0 }],
    sharesOutstanding := 1, eps := 1, isDelisted := false }

/-- Concrete player for the C4 witness: 5 cash, no holdings. -/
def playerC4 : Investor :=
  { id := "P", isHuman := true, cash := 5, portfolio := [],
    totalTaxesPaid := 0, waAnnualNetLTCG := 0, recentTrades := [],
    strategy := { network := none, riskAversion := 0, learningRate := 0 } }

/-- Concrete state for the C4 witness. -/
def stateC4 : SimulationState :=
  { day := 1, time := 0, stocks := [stockC4], investors := [playerC4],
    activeEvent := none }

/-- C4 witness: on `stateC4` a buy of one share (cost 10 > cash 5) and a
sell of one share (none owned) are both rejected with the unchanged state,
and neither call throws. -/
theorem player_invalid_trades_rejected_silently_witness :
    (playerBuyStock stateC4 "P" "A" 1).isSome ∧
    (playerSellStock stateC4 "P" "A" 1).isSome ∧
    playerBuyStock stateC4 "P" "A" 1 = some stateC4 ∧
    playerSellStock stateC4 "P" "A" 1 = some stateC4 := by
  have h := player_invalid_trades_rejected_silently stateC4 "P" "A" 1
    (by simp [stateC4, stockC4])
  refine ⟨h.1, h.2.1, ?_, ?_⟩
  · refine h.2.2.2.2.2.1 playerC4 stockC4
      (by simp [stateC4, playerC4]) (by simp [stateC4, stockC4])
      (by norm_num [lastClose, playerC4, stockC4])
  · refine h.2.2.2.2.2.2 playerC4
      (by simp [stateC4, playerC4]) (by norm_num [getSharesOwned, playerC4])

/-- A lot bought at time 0 for 1 with one share (C5 counterexample data). -/
def lotC5 : ShareLot :=
  { purchaseTime := 0, purchasePrice := 1, shares := 1, purchaseIndicators := [] }

/-- A stock now priced 2 (C5 counterexample data). -/
def stockC5 : Stock :=
  { symbol := "S", name := "S", sector := "T", region := "Asia",
    history := [{ day := 1, openP := 2, high := 2, low := 2, close := 2, volume := 0 }],
    sharesOutstanding := 1, eps := 1, isDelisted := false }

/-- A player holding `lotC5` (C5 counterexample data). -/
def playerC5 : Investor :=
  { id := "P", isHuman := true, cash := 0,
    portfolio := [{ symbol := "S", lots := [lotC5] }],
    totalTaxesPaid := 0, waAnnualNetLTCG := 0, recentTrades := [],
    strategy := { network := none, riskAversion := 0, learningRate := 0 } }

/-- A state whose clock (epoch ms) is about 370 days after the lot's
purchase, so the lot qualifies as long-term (C5 counterexample data). -/
def stateC5 : SimulationState :=
  { day := 400, time := 32000000000, stocks := [stockC5],
    investors := [playerC5], activeEvent := none }

/-- The value of `stateC5` after the sell call: the long-term gain 1 has
been written into the input investor's `waAnnualNetLTCG`. -/
def stateAfterC5 : SimulationState :=
  { day := 400, time := 32000000000, stocks := [stockC5],
    investors := [{ playerC5 with waAnnualNetLTCG := 1 }],
    activeEvent := none }

unseal List.merge List.mergeSort in
set_option maxRecDepth 8000 in
/-- C5 counterexample: selling the long-term lot of `stateC5` at a gain
writes the realized long-term gain into the *input* state's investor
(`inv.waAnnualNetLTCG += gainOrLoss` inside the sell loop runs on the
investor object owned by `prevState`), so the input is not left
unmodified. -/
theorem player_sell_mutates_input_counterexample :
    playerSellStockInputAfter stateC5 "P" "S" 1 ≠ some stateC5 := by
  have heval : playerSellStockInputAfter stateC5 "P" "S" 1 = some stateAfterC5 := by
    with_unfolding_all rfl
  rw [heval]
  intro h
  have h2 := Option.some.inj h
  have h3 := congrArg SimulationState.investors h2
  have h4 := congrArg (fun l => (l.headD playerC5).waAnnualNetLTCG) h3
  norm_num [stateAfterC5, stateC5, playerC5] at h4

theorem investorLTCGAddZero (inv : Investor) :
    { inv with waAnnualNetLTCG := inv.waAnnualNetLTCG + 0 } = inv := by
  cases inv
  simp

theorem mapLTCGAddZero (investors : List Investor) (playerId : String) :
    investors.map (fun inv =>
      if inv.id == playerId then
        { inv with waAnnualNetLTCG := inv.waAnnualNetLTCG + 0 }
      else inv) = investors := by
  induction investors with
  | nil => rfl
  | cons inv rest ih =>
    simp only [List.map_cons, ih]
    by_cases h : inv.id == playerId
    · rw [if_pos h, investorLTCGAddZero]
    · rw [if_neg h]

/-- C5 (amended): `playerBuyStock` leaves the input state unmodified on
every input on which it completes; `playerSellStock` leaves the input's
day, time, stocks, and active event unmodified and every change to the
returned state appears only there, *except* that the matching investors
inside the input state have `waAnnualNetLTCG` incremented in place by the
realized long-term gain of the sale (zero on every reject path). -/
theorem player_trades_input_effect (prevState : SimulationState)
    (playerId symbol : String) (shares : ℚ) :
    (∀ st, playerBuyStockInputAfter prevState playerId symbol shares = some st →
      st = prevState) ∧
    (∀ after ret,
      playerSellStockT prevState playerId symbol shares = some (after, ret) →
      after.day = prevState.day ∧ after.time = prevState.time ∧
      after.stocks = prevState.stocks ∧
      after.activeEvent = prevState.activeEvent ∧
      ∃ delta : ℚ, after.investors = prevState.investors.map
        (fun inv => if inv.id == playerId then
          { inv with waAnnualNetLTCG := inv.waAnnualNetLTCG + delta }
        else inv)) := by
  constructor
  · intro st h
    unfold playerBuyStockInputAfter at h
    cases hb : playerBuyStock prevState playerId symbol shares with
    | none => rw [hb] at h; cases h
    | some s2 => rw [hb] at h; cases h; rfl
  · intro after ret h
    have hid : after = prevState →
        after.day = prevState.day ∧ after.time = prevState.time ∧
        after.stocks = prevState.stocks ∧
        after.activeEvent = prevState.activeEvent ∧
        ∃ delta : ℚ, after.investors = prevState.investors.map
          (fun inv => if inv.id == playerId then
            { inv with waAnnualNetLTCG := inv.waAnnualNetLTCG + delta }
          else inv) := by
      intro he
      subst he
      exact ⟨rfl, rfl, rfl, rfl, 0, (mapLTCGAddZero after.investors playerId).symm⟩
    unfold playerSellStockT at h
    cases hfp : prevState.investors.find? (fun inv => inv.id == playerId) with
    | none =>
      rw [hfp] at h
      cases hfs : prevState.stocks.find? (fun s => s.symbol == symbol) with
      | none => rw [hfs] at h; cases h; exact hid rfl
      | some stock => rw [hfs] at h; cases h; exact hid rfl
    | some player =>
      rw [hfp] at h
      cases hfs : prevState.stocks.find? (fun s => s.symbol == symbol) with
      | none => rw [hfs] at h; cases h; exact hid rfl
      | some stock =>
        rw [hfs] at h
        dsimp only at h
        by_cases h0 : shares ≤ 0
        · rw [if_pos h0] at h; cases h; exact hid rfl
        · rw [if_neg h0] at h
          cases hfi : player.portfolio.find? (fun item => item.symbol == symbol) with
          | none => rw [hfi] at h; cases h; exact hid rfl
          | some portfolioItem =>
            rw [hfi] at h
            dsimp only at h
            by_cases hts : portfolioItem.lots.foldl (fun sum lot => sum + lot.shares) 0 < shares
            · rw [if_pos hts] at h; cases h; exact hid rfl
            · rw [if_neg hts] at h
              cases hlp : stock.history.getLast? with
              | none => rw [hlp] at h; cases h
              | some lastPoint =>
                rw [hlp] at h
                dsimp only at h
                cases h
                refine ⟨rfl, rfl, rfl, rfl,
                  (sellLotsWalk lastPoint.close prevState.time shares
                    (portfolioItem.lots.mergeSort lotTimeLE)).2, rfl⟩

/-- C5 amended-theorem witness: on the rejected zero-share sell against
`stateC5` the input comes back unchanged (delta 0), and a completed buy
also leaves the input unchanged. -/
theorem player_trades_input_effect_witness :
    ((∀ st, playerBuyStockInputAfter stateC5 "P" "S" 0 = some st →
      st = stateC5) ∧
    (∀ after ret, playerSellStockT stateC5 "P" "S" 0 = some (after, ret) →
      after.day = stateC5.day ∧ after.time = stateC5.time ∧
      after.stocks = stateC5.stocks ∧
      after.activeEvent = stateC5.activeEvent ∧
      ∃ delta : ℚ, after.investors = stateC5.investors.map
        (fun inv => if inv.id == "P" then
          { inv with waAnnualNetLTCG := inv.waAnnualNetLTCG + delta }
        else inv))) ∧
    stateC5.day = stateC5.day ∧ stateC5.time = stateC5.time ∧
    stateC5.stocks = stateC5.stocks ∧ stateC5.activeEvent = stateC5.activeEvent ∧
    ∃ delta : ℚ, stateC5.investors = stateC5.investors.map
      (fun inv => if inv.id == "P" then
        { inv with waAnnualNetLTCG := inv.waAnnualNetLTCG + delta }
      else inv) :=
  ⟨player_trades_input_effect stateC5 "P" "S" 0,
    (player_trades_input_effect stateC5 "P" "S" 0).2 stateC5 stateC5
      (by with_unfolding_all rfl)⟩

theorem aiTradeStepCashNonneg (time nextDay : Int) (scoreOf : Stock → ℚ)
    (ivOf : Stock → List ℚ) (imOf : Stock → List (String × ℚ))
    (investor : Investor) (stock : Stock)
    (hc : 0 ≤ investor.cash) (hp : 0 < lastClose stock) :
    0 ≤ (aiTradeStep time nextDay scoreOf ivOf imOf investor stock).cash := by
  unfold aiTradeStep
  by_cases hd : stock.isDelisted
  · simpa [hd] using hc
  · rw [if_neg hd]
    cases hnet : investor.strategy.network with
    | none => exact hc
    | some nn =>
      dsimp only
      by_cases hbuy : scoreOf stock > investor.strategy.riskAversion
      · rw [if_pos hbuy]
        set price := lastClose stock with hprice
        set n : Int := ⌊investor.cash * (1 / 5) / price⌋ with hn
        by_cases hn0 : n > 0
        · rw [if_pos hn0]
          dsimp only
          have hfl : (n : ℚ) ≤ investor.cash * (1 / 5) / price := Int.floor_le _
          have hpne : price ≠ 0 := ne_of_gt hp
          have hmul : (n : ℚ) * price ≤ investor.cash * (1 / 5) := by
            calc (n : ℚ) * price ≤ investor.cash * (1 / 5) / price * price :=
                  mul_le_mul_of_nonneg_right hfl (le_of_lt hp)
              _ = investor.cash * (1 / 5) := div_mul_cancel₀ _ hpne
          linarith
        · rw [if_neg hn0]
          exact hc
      · rw [if_neg hbuy]
        by_cases hsell : scoreOf stock < -investor.strategy.riskAversion ∧
          getSharesOwned (investor.portfolio.find? (fun p => p.symbol == stock.symbol)) > 0
        · rw [if_pos hsell]
          cases hfi : investor.portfolio.find? (fun p => p.symbol == stock.symbol) with
          | none => exact hc
          | some portfolioItem =>
            dsimp only
            set m : Int := ⌊getSharesOwned (some portfolioItem) * (1 / 2)⌋ with hm
            by_cases hm0 : m > 0
            · rw [if_pos hm0]
              dsimp only
              have : (0 : ℚ) ≤ (m : ℚ) * lastClose stock := by
                have hmq : (0 : ℚ) ≤ (m : ℚ) := by exact_mod_cast le_of_lt hm0
                exact mul_nonneg hmq (le_of_lt hp)
              linarith
            · rw [if_neg hm0]
              exact hc
        · rw [if_neg hsell]
          exact hc

theorem aiTradingPassCashNonneg (time nextDay : Int) (scoreOf : Stock → ℚ)
    (ivOf : Stock → List ℚ) (imOf : Stock → List (String × ℚ))
    (investor : Investor) (stocks : List Stock)
    (hc : 0 ≤ investor.cash) (hp : ∀ s ∈ stocks, 0 < lastClose s) :
    0 ≤ (aiTradingPass time nextDay scoreOf ivOf imOf investor stocks).cash := by
  induction stocks generalizing investor with
  | nil => exact hc
  | cons s rest ih =>
    exact ih (aiTradeStep time nextDay scoreOf ivOf imOf investor s)
      (aiTradeStepCashNonneg time nextDay scoreOf ivOf imOf investor s hc
        (hp s (List.mem_cons_self _ _)))
      (fun x hx => hp x (List.mem_cons_of_mem _ hx))

/-- C7: in the investor trading pass a HyperComplex investor buys exactly
when its score exceeds `riskAversion` and `floor(cash * 0.2 / price) > 0`,
buying exactly that many shares and paying `shares * price` (recorded as a
deferred buy trade with evaluation day `nextDay + 5`); consequently any
investor entering the pass with nonnegative cash leaves the entire pass
with nonnegative cash. -/
theorem ai_buy_sizing_and_cash_nonnegative (time nextDay : Int)
    (scoreOf : Stock → ℚ) (ivOf : Stock → List ℚ)
    (imOf : Stock → List (String × ℚ)) (investor : Investor)
    (stock : Stock) (stocks : List Stock) (n : Int) (nn : NeuralNetwork)
    (hd : stock.isDelisted = false)
    (hnn : investor.strategy.network = some nn)
    (hn : n = ⌊investor.cash * (1 / 5) / lastClose stock⌋)
    (hc : 0 ≤ investor.cash)
    (hp : ∀ s ∈ stocks, 0 < lastClose s) :
    (((aiTradeStep time nextDay scoreOf ivOf imOf investor stock).recentTrades =
        investor.recentTrades ++
          [{ symbol := stock.symbol, day := nextDay, type := TradeType.buy,
             shares := (n : ℚ), price := lastClose stock,
             indicatorValuesAtTrade := ivOf stock,
             outcomeEvaluationDay := nextDay + 5 }] ∧
      (aiTradeStep time nextDay scoreOf ivOf imOf investor stock).cash =
        investor.cash - (n : ℚ) * lastClose stock) ↔
      (investor.strategy.riskAversion < scoreOf stock ∧ 0 < n)) ∧
    0 ≤ (aiTradingPass time nextDay scoreOf ivOf imOf investor stocks).cash := by
  constructor
  · constructor
    · rintro ⟨htr, _⟩
      by_cases hs : investor.strategy.riskAversion < scoreOf stock
      · refine ⟨hs, ?_⟩
        by_contra hn0
        rw [aiTradeStep] at htr
        simp only [hd, Bool.false_eq_true, if_false, hnn] at htr
        rw [if_pos hs, ← hn, if_neg (by omega : ¬ n > 0)] at htr
        simp at htr
      · exfalso
        rw [aiTradeStep] at htr
        simp only [hd, Bool.false_eq_true, if_false, hnn] at htr
        rw [if_neg hs] at htr
        by_cases hsell : scoreOf stock < -investor.strategy.riskAversion ∧
          getSharesOwned (investor.portfolio.find? (fun p => p.symbol == stock.symbol)) > 0
        · rw [if_pos hsell] at htr
          cases hfi : investor.portfolio.find? (fun p => p.symbol == stock.symbol) with
          | none =>
            rw [hfi] at htr
            simp at htr
          | some portfolioItem =>
            rw [hfi] at htr
            dsimp only at htr
            by_cases hm0 : ⌊getSharesOwned (some portfolioItem) * (1 / 2)⌋ > (0 : Int)
            · rw [if_pos hm0] at htr
              dsimp only at htr
              have := List.append_inj_right htr (rfl : investor.recentTrades.length = investor.recentTrades.length)
              simp at this
            · rw [if_neg hm0] at htr
              simp at htr
        · rw [if_neg hsell] at htr
          simp at htr
    · rintro ⟨hs, hn0⟩
      rw [aiTradeStep]
      simp only [hd, Bool.false_eq_true, if_false, hnn]
      rw [if_pos hs, ← hn, if_pos (by omega : n > 0)]
      exact ⟨rfl, rfl⟩
  · exact aiTradingPassCashNonneg time nextDay scoreOf ivOf imOf investor stocks hc hp

/-- A stock priced 10 for the C7 witness. -/
def stockC7 : Stock :=
  { symbol := "B", name := "B", sector := "Tech", region := "Asia",
    history := [{ day := 1, openP := 10, high := 10, low := 10, close := 10, volume := 0 }],
    sharesOutstanding := 1, eps := 1, isDelisted := false }

/-- An AI investor with 100 cash and risk aversion 1/2 for the C7
witness. -/
def investorC7 : Investor :=
  { id := "a", isHuman := false, cash := 100, portfolio := [],
    totalTaxesPaid := 0, waAnnualNetLTCG := 0, recentTrades := [],
    strategy := { network := some { trainLog := [] }, riskAversion := 1 / 2, learningRate := 1 / 100 } }

/-- C7 witness: with score 1 > riskAversion 1/2 and
`floor(100 * 0.2 / 10) = 2 > 0` the investor buys exactly 2 shares for 20
and stays at nonnegative cash through the whole pass. -/
theorem ai_buy_sizing_and_cash_nonnegative_witness :
    (((aiTradeStep 0 1 (fun _ => 1) (fun _ => []) (fun _ => []) investorC7 stockC7).recentTrades =
        investorC7.recentTrades ++
          [{ symbol := stockC7.symbol, day := 1, type := TradeType.buy,
             shares := ((2 : Int) : ℚ), price := lastClose stockC7,
             indicatorValuesAtTrade := [],
             outcomeEvaluationDay := 1 + 5 }] ∧
      (aiTradeStep 0 1 (fun _ => 1) (fun _ => []) (fun _ => []) investorC7 stockC7).cash =
        investorC7.cash - ((2 : Int) : ℚ) * lastClose stockC7) ↔
      (investorC7.strategy.riskAversion < 1 ∧ 0 < (2 : Int))) ∧
    0 ≤ (aiTradingPass 0 1 (fun _ => 1) (fun _ => []) (fun _ => []) investorC7 [stockC7]).cash :=
  ai_buy_sizing_and_cash_nonnegative 0 1 (fun _ => 1) (fun _ => [])
    (fun _ => []) investorC7 stockC7 [stockC7] 2 { trainLog := [] }
    (by with_unfolding_all rfl) (by with_unfolding_all rfl)
    (by
      have : lastClose stockC7 = 10 := by
        simp [lastClose, stockC7]
      rw [this]
      norm_num [investorC7])
    (by norm_num [investorC7])
    (by
      intro s hs
      have : s = stockC7 := by simpa using hs
      subst this
      simp [lastClose, stockC7])

theorem lotsSharesCons (lot : ShareLot) (rest : List ShareLot) :
    lotsShares (lot :: rest) = lot.shares + lotsShares rest := by
  simp [lotsShares]

theorem sellFIFONonpos (toSell : ℚ) (lots : List ShareLot) (h : toSell ≤ 0) :
    sellFIFO toSell lots = lots := by
  induction lots with
  | nil => rfl
  | cons lot rest ih =>
    unfold sellFIFO
    rw [if_pos h, ih]

theorem lotsSharesSellFIFO (toSell : ℚ) (lots : List ShareLot)
    (h0 : 0 ≤ toSell) (hs : toSell ≤ lotsShares lots) :
    lotsShares (sellFIFO toSell lots) = lotsShares lots - toSell := by
  induction lots generalizing toSell with
  | nil =>
    have h : toSell = 0 := le_antisymm (by simpa [lotsShares] using hs) h0
    subst h
    simp [sellFIFO, lotsShares]
  | cons lot rest ih =>
    unfold sellFIFO
    by_cases hle : toSell ≤ 0
    · have h : toSell = 0 := le_antisymm hle h0
      subst h
      rw [if_pos le_rfl, sellFIFONonpos 0 rest le_rfl]
      simp
    · rw [if_neg hle]
      by_cases hgt : lot.shares > toSell
      · rw [if_pos hgt, lotsSharesCons, sellFIFONonpos 0 rest le_rfl,
          lotsSharesCons]
        dsimp only
        ring
      · rw [if_neg hgt]
        push_neg at hgt
        have h0a : 0 ≤ toSell - lot.shares := by linarith
        have hsa : toSell - lot.shares ≤ lotsShares rest := by
          rw [lotsSharesCons] at hs
          linarith
        rw [ih _ h0a hsa, lotsSharesCons]
        ring

theorem lotsSharesMergeSort (lots : List ShareLot) :
    lotsShares (lots.mergeSort lotTimeLE) = lotsShares lots := by
  unfold lotsShares
  exact List.Perm.sum_eq
    (List.Perm.map ShareLot.shares (List.mergeSort_perm lots lotTimeLE))

theorem lotsSharesSellLots (toSell : ℚ) (lots : List ShareLot)
    (h0 : 0 ≤ toSell) (hs : toSell ≤ lotsShares lots) :
    lotsShares (sellLots toSell lots) = lotsShares lots - toSell := by
  unfold sellLots
  rw [lotsSharesSellFIFO _ _ h0 (by rwa [lotsSharesMergeSort]),
    lotsSharesMergeSort]

theorem applyLotOpsShares (ops : List LotOp) (lots : List ShareLot)
    (hv : ValidLotOps ops lots) :
    lotsShares (applyLotOps ops lots) =
      lotsShares lots + opsBought ops - opsSold ops := by
  induction ops generalizing lots with
  | nil => simp [applyLotOps, opsBought, opsSold]
  | cons op rest ih =>
    cases op with
    | buy lot =>
      obtain ⟨hl, hva⟩ := hv
      show lotsShares (applyLotOps rest (lots ++ [lot])) = _
      rw [ih _ hva]
      simp only [lotsShares, opsBought, opsSold, List.map_append, List.map_cons,
        List.sum_append, List.sum_cons]
      simp
      ring
    | sell a =>
      obtain ⟨h0, hs, hva⟩ := hv
      show lotsShares (applyLotOps rest (sellLots a lots)) = _
      rw [ih _ hva, lotsSharesSellLots a lots h0 hs]
      simp only [opsBought, opsSold, List.map_cons, List.sum_cons]
      ring

theorem reduceHeadZero (lots : List ShareLot) : reduceHead 0 lots = lots := by
  cases lots with
  | nil => rfl
  | cons lot rest =>
    unfold reduceHead
    cases lot
    simp

theorem sellFIFOStructure (toSell : ℚ) (lots : List ShareLot)
    (h0 : 0 ≤ toSell) (hs : toSell ≤ lotsShares lots) :
    ∃ k d, k ≤ lots.length ∧ 0 ≤ d ∧
      sellFIFO toSell lots = reduceHead d (lots.drop k) ∧
      lotsShares (lots.take k) + d = toSell ∧
      (0 < d → ∃ hd, (lots.drop k).head? = some hd ∧ d < hd.shares) := by
  induction lots generalizing toSell with
  | nil =>
    have h : toSell = 0 := le_antisymm (by simpa [lotsShares] using hs) h0
    subst h
    exact ⟨0, 0, by simp, le_rfl, by simp [sellFIFO, reduceHead],
      by simp [lotsShares], by simp⟩
  | cons lot rest ih =>
    by_cases hle : toSell ≤ 0
    · have h : toSell = 0 := le_antisymm hle h0
      subst h
      refine ⟨0, 0, by simp, le_rfl, ?_, by simp [lotsShares], by simp⟩
      rw [sellFIFONonpos _ _ le_rfl, List.drop_zero, reduceHeadZero]
    · by_cases hgt : lot.shares > toSell
      · refine ⟨0, toSell, by simp, h0, ?_, by simp [lotsShares], ?_⟩
        · unfold sellFIFO
          rw [if_neg hle, if_pos hgt, sellFIFONonpos 0 rest le_rfl]
          rfl
        · intro _
          exact ⟨lot, rfl, hgt⟩
      · push_neg at hgt
        have h0a : 0 ≤ toSell - lot.shares := by linarith
        have hsa : toSell - lot.shares ≤ lotsShares rest := by
          rw [lotsSharesCons] at hs
          linarith
        obtain ⟨k, d, hk, hd0, hres, hsum, hpart⟩ := ih (toSell - lot.shares) h0a hsa
        refine ⟨k + 1, d, by simpa using hk, hd0, ?_, ?_, ?_⟩
        · rw [List.drop_succ_cons, ← hres]
          simp only [sellFIFO]
          rw [if_neg hle, if_neg (not_lt.mpr hgt)]
        · rw [List.take_succ_cons, lotsSharesCons]
          linarith
        · rw [List.drop_succ_cons]
          exact hpart

theorem sellLotsWalkFst (cp : ℚ) (t : Int) (toSell : ℚ)
    (lots : List ShareLot) :
    (sellLotsWalk cp t toSell lots).1 = sellFIFO toSell lots := by
  induction lots generalizing toSell with
  | nil => rfl
  | cons lot rest ih =>
    unfold sellLotsWalk sellFIFO
    by_cases hle : toSell ≤ 0
    · simp only [if_pos hle]
      rw [← ih toSell]
    · rw [if_neg hle, if_neg hle]
      by_cases hgt : lot.shares > toSell
      · simp only [if_pos hgt]
        rw [← ih 0]
      · simp only [if_neg hgt]
        rw [← ih (toSell - lot.shares)]

theorem mergeSortSortedByTime (lots : List ShareLot) :
    List.Pairwise (fun a b : ShareLot => a.purchaseTime ≤ b.purchaseTime)
      (lots.mergeSort lotTimeLE) := by
  have h := @List.sorted_mergeSort ShareLot lotTimeLE
    (fun a b c hab hbc => by
      simp only [lotTimeLE, decide_eq_true_eq] at hab hbc ⊢
      omega)
    (fun a b => by
      simp only [lotTimeLE, Bool.or_eq_true, decide_eq_true_eq]
      omega)
    lots
  exact h.imp (fun hab => by
    simpa only [lotTimeLE, decide_eq_true_eq] using hab)

/-- C6: lot accounting is exact and FIFO.  (i) After any valid sequence of
buys and sells on a symbol's lot list, the total shares held equal the
initial holding plus total shares bought minus total shares sold.
(ii) Both sell paths consume the walk `sellFIFO` applied to the lots
sorted by `purchaseTime` (oldest first); the sorted list is sorted by
purchase time, and one sell removes a fully-consumed prefix of the sorted
lots, partially reduces at most the single next lot (by `d < hd.shares`
with the removed prefix plus `d` accounting exactly for the shares sold),
and leaves the remaining lots untouched. -/
theorem fifo_lot_accounting (ops : List LotOp) (lots lots2 : List ShareLot)
    (toSell : ℚ) (cp : ℚ) (t : Int)
    (hv : ValidLotOps ops lots) (h0 : 0 ≤ toSell)
    (hs : toSell ≤ lotsShares lots2) :
    lotsShares (applyLotOps ops lots) =
      lotsShares lots + opsBought ops - opsSold ops ∧
    (sellLotsWalk cp t toSell (lots2.mergeSort lotTimeLE)).1 =
      sellLots toSell lots2 ∧
    List.Pairwise (fun a b : ShareLot => a.purchaseTime ≤ b.purchaseTime)
      (lots2.mergeSort lotTimeLE) ∧
    ∃ k d, k ≤ (lots2.mergeSort lotTimeLE).length ∧ 0 ≤ d ∧
      sellLots toSell lots2 = reduceHead d ((lots2.mergeSort lotTimeLE).drop k) ∧
      lotsShares ((lots2.mergeSort lotTimeLE).take k) + d = toSell ∧
      (0 < d → ∃ hd, ((lots2.mergeSort lotTimeLE).drop k).head? = some hd ∧
        d < hd.shares) := by
  refine ⟨applyLotOpsShares ops lots hv, sellLotsWalkFst cp t toSell _,
    mergeSortSortedByTime lots2, ?_⟩
  exact sellFIFOStructure toSell (lots2.mergeSort lotTimeLE) h0
    (by rwa [lotsSharesMergeSort])

/-- C6 witness: buying lots of 2 and 3 shares then selling 4 leaves 1
share; the sell fully consumes the older lot (2 shares, time 1) and
partially reduces the newer one, oldest first. -/
theorem fifo_lot_accounting_witness :
    lotsShares (applyLotOps
      [LotOp.buy { purchaseTime := 2, purchasePrice := 1, shares := 3, purchaseIndicators := [] },
       LotOp.sell 4] [{ purchaseTime := 1, purchasePrice := 1, shares := 2, purchaseIndicators := [] }]) =
      lotsShares [{ purchaseTime := 1, purchasePrice := 1, shares := 2, purchaseIndicators := [] }] +
        opsBought [LotOp.buy { purchaseTime := 2, purchasePrice := 1, shares := 3, purchaseIndicators := [] }, LotOp.sell 4] -
        opsSold [LotOp.buy { purchaseTime := 2, purchasePrice := 1, shares := 3, purchaseIndicators := [] }, LotOp.sell 4] ∧
    (sellLotsWalk 1 0 4
      ([{ purchaseTime := 1, purchasePrice := 1, shares := 2, purchaseIndicators := [] },
        { purchaseTime := 2, purchasePrice := 1, shares := 3, purchaseIndicators := [] }].mergeSort lotTimeLE)).1 =
      sellLots 4
        [{ purchaseTime := 1, purchasePrice := 1, shares := 2, purchaseIndicators := [] },
         { purchaseTime := 2, purchasePrice := 1, shares := 3, purchaseIndicators := [] }] ∧
    List.Pairwise (fun a b : ShareLot => a.purchaseTime ≤ b.purchaseTime)
      ([{ purchaseTime := 1, purchasePrice := 1, shares := 2, purchaseIndicators := [] },
        { purchaseTime := 2, purchasePrice := 1, shares := 3, purchaseIndicators := [] }].mergeSort lotTimeLE) ∧
    ∃ k d,
      k ≤ ([{ purchaseTime := 1, purchasePrice := 1, shares := 2, purchaseIndicators := [] },
        { purchaseTime := 2, purchasePrice := 1, shares := 3, purchaseIndicators := [] }].mergeSort lotTimeLE).length ∧
      0 ≤ d ∧
      sellLots 4
        [{ purchaseTime := 1, purchasePrice := 1, shares := 2, purchaseIndicators := [] },
         { purchaseTime := 2, purchasePrice := 1, shares := 3, purchaseIndicators := [] }] =
        reduceHead d
          (([{ purchaseTime := 1, purchasePrice := 1, shares := 2, purchaseIndicators := [] },
            { purchaseTime := 2, purchasePrice := 1, shares := 3, purchaseIndicators := [] }].mergeSort lotTimeLE).drop k) ∧
      lotsShares
        (([{ purchaseTime := 1, purchasePrice := 1, shares := 2, purchaseIndicators := [] },
          { purchaseTime := 2, purchasePrice := 1, shares := 3, purchaseIndicators := [] }].mergeSort lotTimeLE).take k) + d = 4 ∧
      (0 < d → ∃ hd,
        (([{ purchaseTime := 1, purchasePrice := 1, shares := 2, purchaseIndicators := [] },
          { purchaseTime := 2, purchasePrice := 1, shares := 3, purchaseIndicators := [] }].mergeSort lotTimeLE).drop k).head? =
          some hd ∧ d < hd.shares) :=
  fifo_lot_accounting
    [LotOp.buy { purchaseTime := 2, purchasePrice := 1, shares := 3, purchaseIndicators := [] }, LotOp.sell 4]
    [{ purchaseTime := 1, purchasePrice := 1, shares := 2, purchaseIndicators := [] }]
    [{ purchaseTime := 1, purchasePrice := 1, shares := 2, purchaseIndicators := [] },
     { purchaseTime := 2, purchasePrice := 1, shares := 3, purchaseIndicators := [] }]
    4 1 0
    (by
      refine ⟨by norm_num, by norm_num, by norm_num [lotsShares], trivial⟩)
    (by norm_num)
    (by norm_num [lotsShares])

end StockMarket
